import Mathlib

/-!
Verification development for the shader-module composition engine
(`ShaderMaker` wrapper over a module composer) of this repository.

The wrapper functions `ShaderMaker.new`, `ShaderMaker.add_composable`,
`ShaderMaker.make_shader` and the helper `align_up` are shallow embeddings
of the functions of the same names in `src/src/main.rs`.  The composer the
wrapper drives (its module registry, define resolution, compose pipeline
and diagnostic rendering) is an external component whose code is not part
of this repository; those parts are modelled from the spec and each such
definition carries a doc comment starting with `Modelled from the spec:`.

Machine integers are modelled as `Nat` with explicit `% 2 ^ 32` where
32-bit overflow matters.  Shader source text is modelled structurally as a
list of items (import directives, top-level declarations, and conditional
blocks guarding declarations), matching the shader-language features the
spec describes: import directives and conditional blocks keyed by symbol.
-/

/-- Modelled from the spec: the composer's shader-define value type
(missing from `src/`; the source only names it as `ShaderDefValue` and
uses `Default::default()` for activated symbols).  A define value is a
boolean, a signed integer or an unsigned integer; the default value used
for an activated symbol is `bool true`, and an absent/inactive symbol
resolves to the default `false`. -/
inductive ShaderDefValue where
  | bool (b : Bool)
  | int (i : Int)
  | uint (u : Nat)
deriving DecidableEq

/-- Modelled from the spec: the value an activated symbol receives when no
explicit value is supplied (`Default::default()` at `src/src/main.rs:33`
and `:65`): `true`. -/
def ShaderDefValue.default : ShaderDefValue := .bool true

/-- Modelled from the spec: truthiness of a define value, used when a
conditional block keyed by a symbol is evaluated. -/
def ShaderDefValue.isTrue : ShaderDefValue → Bool
  | .bool b => b
  | .int i => i != 0
  | .uint u => u != 0

/-- A symbol-to-value mapping, the only cross-boundary form of defines.
Models the `HashMap<String, ShaderDefValue>` of the source by its
observable association-list semantics. -/
abbrev DefsMap := List (String × ShaderDefValue)

/-- Lookup of a symbol in a defines mapping. -/
def alookup : DefsMap → String → Option ShaderDefValue
  | [], _ => none
  | p :: t, k => if p.1 = k then some p.2 else alookup t k

/-- Insertion into a defines mapping with `HashMap::insert` semantics: an
existing binding for the key is overwritten, otherwise the binding is
added. -/
def insertDef : DefsMap → String → ShaderDefValue → DefsMap
  | [], k, v => [(k, v)]
  | p :: t, k, v => if p.1 = k then (k, v) :: t else p :: insertDef t k v

/-- The defines map built by both `add_composable` (`src/src/main.rs:31-34`)
and `make_shader` (`src/src/main.rs:63-66`): every listed symbol is
inserted with the default value. -/
def buildDefsMap (defs : List String) : DefsMap :=
  defs.foldl (fun m d => insertDef m d ShaderDefValue.default) []

/-- Modelled from the spec: resolution of a symbol against a defines
mapping — declared-but-inactive (absent) symbols resolve to the default
`false`, present symbols resolve to their bound value. -/
def resolveDefine (m : DefsMap) (k : String) : ShaderDefValue :=
  (alookup m k).getD (.bool false)

/-- Structural model of shader source text: an item is an import directive
naming a registered module, a top-level declaration, or a conditional
block keyed by a symbol guarding a list of declarations. -/
inductive Item where
  | imp (name : String)
  | decl (dname : String)
  | ifdef (sym : String) (body : List String)
deriving DecidableEq

/-- Import directives of a source, in order. -/
def importsOf : List Item → List String
  | [] => []
  | Item.imp n :: rest => n :: importsOf rest
  | Item.decl _ :: rest => importsOf rest
  | Item.ifdef _ _ :: rest => importsOf rest

/-- Declaration names an item can contribute under any define mapping. -/
def Item.declNames : Item → List String
  | .imp _ => []
  | .decl d => [d]
  | .ifdef _ body => body

/-- All declaration names a source can contribute under any define
mapping. -/
def declNamesOf : List Item → List String
  | [] => []
  | it :: rest => it.declNames ++ declNamesOf rest

/-- Modelled from the spec: whether a conditional block keyed by `sym`
survives under the mapping `m` — the symbol's resolved value must be
true; an absent symbol resolves to the default `false`. -/
def evalGuard (m : DefsMap) (sym : String) : Bool :=
  (resolveDefine m sym).isTrue

/-- Modelled from the spec: declarations an item contributes under the
mapping `m` (conditional-compilation evaluation as a pure function). -/
def Item.enabledDecls (m : DefsMap) : Item → List String
  | .imp _ => []
  | .decl d => [d]
  | .ifdef sym body => if evalGuard m sym then body else []

/-- Modelled from the spec: conditional compilation of a whole unit under
the mapping `m` — the surviving declarations, in source order. -/
def applyDefs (m : DefsMap) : List Item → List String
  | [] => []
  | it :: rest => it.enabledDecls m ++ applyDefs m rest

/-- Modelled from the spec: a registered composable module — unique name,
source, and the define mapping it was registered with. -/
structure ComposableModule where
  name : String
  source : List Item
  shader_defs : DefsMap
deriving DecidableEq

/-- Modelled from the spec: the composer's structured failure record,
distinguished by kind, carrying implicated module name(s). -/
inductive Diagnostic where
  | registrationFailure (module_name : String)
  | unresolvedImport (name : String)
  | importCycle (path : List String)
  | duplicateSymbol (sym : String)
  | validationFailed (cause : String)
deriving DecidableEq

/-- Modelled from the spec: the validated merged unit produced by a
successful composition, as its merged top-level declaration names. -/
structure NagaModule where
  decls : List String
deriving DecidableEq

/-- The `wgpu::ShaderSource` value the wrapper returns on success
(`src/src/main.rs:73`). -/
inductive ShaderSource where
  | naga (m : NagaModule)
deriving DecidableEq

/-- Modelled from the spec: the composer's state, an append-only registry
of named composable modules. -/
structure Composer where
  modules : List ComposableModule
deriving DecidableEq

/-- Modelled from the spec: `Composer::default()` — an empty registry
(`src/src/main.rs:16`). -/
def Composer.default : Composer := { modules := [] }

/-- Modelled from the spec: lookup of a module by name in a registry
list. -/
def lookupModule : List ComposableModule → String → Option ComposableModule
  | [], _ => none
  | m :: t, name => if m.name = name then some m else lookupModule t name

/-- Modelled from the spec: lookup of a registered module by name. -/
def findModule (c : Composer) (name : String) : Option ComposableModule :=
  lookupModule c.modules name

/-- Modelled from the spec: `Composer::contains_module`
(`src/src/main.rs:28`). -/
def contains_module (c : Composer) (name : String) : Bool :=
  (findModule c name).isSome

/-- Modelled from the spec: whether a declaration name is well formed
(part of structural validation). -/
def validDeclName (s : String) : Bool := s.length != 0

/-- Modelled from the spec: the structural validity check the composer
performs on a unit at registration time (parse/validation): every
declaration name and every imported module name must be well formed. -/
def validSource (src : List Item) : Bool :=
  (declNamesOf src).all validDeclName && (importsOf src).all validDeclName

/-- The descriptor the wrapper passes at registration
(`src/src/main.rs:38-43`). -/
structure ComposableModuleDescriptor where
  source : List Item
  shader_defs : DefsMap
  as_name : String

/-- Modelled from the spec: `Composer::add_composable_module` — validates
the unit; on success inserts a module keyed by its name and returns it,
on failure returns a diagnostic and no insertion occurs. -/
def add_composable_module (c : Composer) (desc : ComposableModuleDescriptor) :
    Except Diagnostic (Composer × ComposableModule) :=
  if validSource desc.source then
    let m : ComposableModule :=
      { name := desc.as_name, source := desc.source, shader_defs := desc.shader_defs }
    .ok ({ modules := c.modules ++ [m] }, m)
  else
    .error (.registrationFailure desc.as_name)

/-- Modelled from the spec: depth-first transitive resolution of a list
of import names against the registry, with an explicit import path `stack`
for cycle detection and a `visited` list of already-resolved modules.
Returns the resolved modules in dependency order together with the final
visited list.  A missing module yields `unresolvedImport`; a name already
on the path yields `importCycle`.  The `fuel` bound only serves
termination; callers supply enough for the registry at hand. -/
def resolveNames (c : Composer) : Nat → List String → List String → List String →
    Except Diagnostic (List ComposableModule × List String)
  | _, _, visited, [] => .ok ([], visited)
  | 0, _, _, _ :: _ => .error (.validationFailed "import recursion limit exceeded")
  | Nat.succ fuel, stack, visited, n :: rest =>
    if n ∈ visited then
      resolveNames c fuel stack visited rest
    else if n ∈ stack then
      .error (.importCycle (stack ++ [n]))
    else
      match findModule c n with
      | none => .error (.unresolvedImport n)
      | some m =>
        match resolveNames c fuel (stack ++ [n]) visited (importsOf m.source) with
        | .error e => .error e
        | .ok (units1, visited1) =>
          match resolveNames c fuel stack (visited1 ++ [n]) rest with
          | .error e => .error e
          | .ok (units2, visited2) => .ok (units1 ++ m :: units2, visited2)

/-- Declarations contributed by a list of resolved modules, each unit
filtered by the define mapping it was registered with. -/
def unitsDecls : List ComposableModule → List String
  | [] => []
  | m :: rest => applyDefs m.shader_defs m.source ++ unitsDecls rest

/-- First declaration name that occurs more than once in the merged
namespace, if any. -/
def firstDup : List String → Option String
  | [] => none
  | x :: xs => if x ∈ xs then some x else firstDup xs

/-- Fuel that covers one full transitive resolution over the registry:
one step per import occurrence in any registered module plus one per
module, plus the main source's own imports. -/
def importBudget (c : Composer) : Nat :=
  c.modules.foldl (fun acc m => acc + (importsOf m.source).length + 1) 0

/-- Modelled from the spec: `Composer::make_naga_module` — resolves the
main source's imports transitively against the registry, applies each
unit's own define mapping (imported modules use the defines they were
registered with, only the main source uses the request defines), merges
the surviving declarations into one namespace, rejects duplicate symbols,
structurally validates the merged unit, and on success wraps it. -/
def make_naga_module (c : Composer) (source : List Item) (shader_defs : DefsMap) :
    Except Diagnostic NagaModule :=
  match resolveNames c (importBudget c + (importsOf source).length + 1) [] []
      (importsOf source) with
  | .error e => .error e
  | .ok (units, _) =>
    let merged := unitsDecls units ++ applyDefs shader_defs source
    match firstDup merged with
    | some d => .error (.duplicateSymbol d)
    | none =>
      if merged.all validDeclName then
        .ok { decls := merged }
      else
        .error (.validationFailed "merged unit failed structural validation")

/-- Modelled from the spec: `ComposerError::emit_to_string` — renders a
diagnostic with the implicated module name and registry context when
available, degrading to a plain textual dump when metadata is missing;
read-only over the registry and total. -/
def emit_to_string (e : Diagnostic) (c : Composer) : String :=
  match e with
  | .registrationFailure n => "failed to register composable module " ++ n
  | .unresolvedImport n =>
    if contains_module c n then
      "unresolved import " ++ n
    else
      "unresolved import " ++ n ++ " (no module of this name is registered)"
  | .importCycle p => "import cycle detected: " ++ String.intercalate " -> " p
  | .duplicateSymbol s => "duplicate symbol in merged namespace: " ++ s
  | .validationFailed cause => "validation of the merged unit failed: " ++ cause

/-- The wrapper around the composer (`src/src/main.rs:10-12`). -/
structure ShaderMaker where
  composer : Composer
deriving DecidableEq

/-- `ShaderMaker::new` (`src/src/main.rs:15-19`): a fresh wrapper holding
a default (empty) composer. -/
def ShaderMaker.new : ShaderMaker := { composer := Composer.default }

/-- `ShaderMaker::add_composable` (`src/src/main.rs:22-55`): if no module
of the given name is registered, build the defines map from the listed
symbols (each with the default value) and register the source under the
name; registration failure is printed and swallowed.  If the name is
already registered the call is a no-op. -/
def ShaderMaker.add_composable (sm : ShaderMaker) (source : List Item)
    (module_name : String) (shader_defs : List String) : ShaderMaker :=
  let module_exists := contains_module sm.composer module_name
  if !module_exists then
    let shader_defs_map := buildDefsMap shader_defs
    match add_composable_module sm.composer
        { source := source, shader_defs := shader_defs_map, as_name := module_name } with
    | .ok (c, _) => { composer := c }
    | .error _ => sm
  else
    sm

/-- `ShaderMaker::make_shader` (`src/src/main.rs:58-79`): build the
defines map from the listed symbols, compose; on success return the
module as a shader source, on failure print the rendered diagnostic and
return none.  The result is the returned value, the rendered diagnostic
if one was printed, and the wrapper state after the call. -/
def ShaderMaker.make_shader (sm : ShaderMaker) (source : List Item)
    (shader_defs : List String) : Option ShaderSource × Option String × ShaderMaker :=
  let shader_defs_map := buildDefsMap shader_defs
  match make_naga_module sm.composer source shader_defs_map with
  | .ok module => (some (.naga module), none, sm)
  | .error e => (none, some (emit_to_string e sm.composer), sm)

/-- `align_up` (`src/src/main.rs:336-338`), on `u32`:
`((num) + ((align) - 1)) & !((align) - 1)`, with the addition taken
modulo `2 ^ 32` and bitwise complement relative to the 32-bit width. -/
def align_up (num align : Nat) : Nat :=
  ((num + (align - 1)) % 2 ^ 32) &&& ((2 ^ 32 - 1) ^^^ (align - 1))

/-! ### Lookup lemmas for the defines mapping and the registry -/

lemma alookup_insertDef_self (k : String) (v : ShaderDefValue) :
    ∀ (m : DefsMap), alookup (insertDef m k v) k = some v
  | [] => by simp [insertDef, alookup]
  | p :: t => by
    by_cases hp : p.1 = k
    · simp [insertDef, hp, alookup]
    · simp [insertDef, hp, alookup, alookup_insertDef_self k v t]

lemma alookup_insertDef_ne (k : String) (v : ShaderDefValue) (k' : String)
    (hne : k' ≠ k) :
    ∀ (m : DefsMap), alookup (insertDef m k v) k' = alookup m k'
  | [] => by simp [insertDef, alookup, Ne.symm hne]
  | p :: t => by
    by_cases hp : p.1 = k
    · simp [insertDef, hp, alookup, Ne.symm hne]
    · simp [insertDef, hp, alookup, alookup_insertDef_ne k v k' hne t]

lemma alookup_buildDefsMap_aux (k : String) :
    ∀ (defs : List String) (acc : DefsMap),
      alookup (defs.foldl (fun m d => insertDef m d ShaderDefValue.default) acc) k =
        if k ∈ defs then some ShaderDefValue.default else alookup acc k
  | [], acc => by simp
  | d :: t, acc => by
    rw [List.foldl_cons, alookup_buildDefsMap_aux k t (insertDef acc d ShaderDefValue.default)]
    by_cases hk : k ∈ t
    · simp [hk, List.mem_cons]
    · by_cases hkd : k = d
      · subst hkd
        simp [hk, alookup_insertDef_self]
      · simp [hk, hkd, alookup_insertDef_ne d ShaderDefValue.default k hkd]

lemma alookup_buildDefsMap (defs : List String) (k : String) :
    alookup (buildDefsMap defs) k =
      if k ∈ defs then some ShaderDefValue.default else none := by
  unfold buildDefsMap
  rw [alookup_buildDefsMap_aux]
  rfl

lemma lookupModule_append (name : String) :
    ∀ (l1 l2 : List ComposableModule), lookupModule l1 name = none →
      lookupModule (l1 ++ l2) name = lookupModule l2 name
  | [], _, _ => rfl
  | m :: t, l2, h => by
    by_cases hm : m.name = name
    · simp [lookupModule, hm] at h
    · simp only [lookupModule, hm, if_false, List.cons_append, if_neg hm] at h ⊢
      exact lookupModule_append name t l2 h

lemma lookupModule_mem (name : String) :
    ∀ (l : List ComposableModule) (m : ComposableModule),
      lookupModule l name = some m → m ∈ l
  | [], m, h => by simp [lookupModule] at h
  | x :: t, m, h => by
    by_cases hx : x.name = name
    · simp only [lookupModule, if_pos hx, Option.some.injEq] at h
      subst h
      exact List.mem_cons_self x t
    · simp only [lookupModule, if_neg hx] at h
      exact List.mem_cons_of_mem x (lookupModule_mem name t m h)

/-! ### Registration -/

/-- C1: registration is idempotent with first-wins semantics — if a module
of the given name is already contained in the registry, a second
`add_composable` call with that name (whatever its source and defines)
performs no insertion and leaves the wrapper state exactly as it was. -/
theorem addComposable_idempotent (sm : ShaderMaker) (source : List Item)
    (module_name : String) (shader_defs : List String)
    (h : contains_module sm.composer module_name = true) :
    sm.add_composable source module_name shader_defs = sm := by
  simp [ShaderMaker.add_composable, h]

theorem addComposable_idempotent_witness :
    (ShaderMaker.new.add_composable [Item.decl "a"] "m" []).add_composable
        [Item.decl "b"] "m" ["X"]
      = ShaderMaker.new.add_composable [Item.decl "a"] "m" [] :=
  addComposable_idempotent (ShaderMaker.new.add_composable [Item.decl "a"] "m" [])
    [Item.decl "b"] "m" ["X"] (by decide)

/-- C10: a freshly constructed `ShaderMaker` has an empty registry: no
name is contained in it, and consequently the first `add_composable` call
for any name attempts the insertion (so a valid source becomes
registered). -/
theorem freshRegistryEmpty (module_name : String) (source : List Item)
    (shader_defs : List String) :
    contains_module ShaderMaker.new.composer module_name = false ∧
    (validSource source = true →
      contains_module
        (ShaderMaker.new.add_composable source module_name shader_defs).composer
        module_name = true) := by
  constructor
  · rfl
  · intro hv
    simp [ShaderMaker.new, ShaderMaker.add_composable, contains_module, findModule,
      Composer.default, add_composable_module, hv, lookupModule]

theorem freshRegistryEmpty_witness :
    contains_module ShaderMaker.new.composer "m" = false ∧
    contains_module
      (ShaderMaker.new.add_composable [Item.decl "a"] "m" []).composer "m" = true :=
  ⟨(freshRegistryEmpty "m" [Item.decl "a"] []).1,
   (freshRegistryEmpty "m" [Item.decl "a"] []).2 (by decide)⟩

/-- C4: for a name not yet contained in the registry, `add_composable`
makes `contains` true exactly when the supplied source is structurally
valid; on a validation failure no insertion occurs and the wrapper state
is unchanged, so a later call with the same name retries the insertion. -/
theorem register_contains_iff_valid (sm : ShaderMaker) (source : List Item)
    (module_name : String) (shader_defs : List String)
    (h : contains_module sm.composer module_name = false) :
    (contains_module (sm.add_composable source module_name shader_defs).composer
        module_name = true
      ↔ validSource source = true) ∧
    (validSource source = false →
      sm.add_composable source module_name shader_defs = sm) := by
  have hfind : lookupModule sm.composer.modules module_name = none := by
    unfold contains_module findModule at h
    cases hf : lookupModule sm.composer.modules module_name with
    | none => rfl
    | some m => rw [hf] at h; simp at h
  by_cases hv : validSource source = true
  · have hstep : (sm.add_composable source module_name shader_defs).composer.modules
        = sm.composer.modules ++
          [{ name := module_name, source := source,
             shader_defs := buildDefsMap shader_defs }] := by
      simp [ShaderMaker.add_composable, h, add_composable_module, hv]
    have hcont : contains_module
        (sm.add_composable source module_name shader_defs).composer module_name = true := by
      unfold contains_module findModule
      rw [hstep, lookupModule_append module_name _ _ hfind]
      simp [lookupModule]
    refine ⟨by simp [hcont, hv], ?_⟩
    intro hvf
    rw [hv] at hvf
    cases hvf
  · have hvf : validSource source = false := by
      cases hb : validSource source
      · rfl
      · exact absurd hb hv
    have hid : sm.add_composable source module_name shader_defs = sm := by
      simp [ShaderMaker.add_composable, h, add_composable_module, hvf]
    exact ⟨by simp [hid, h, hvf], fun _ => hid⟩

theorem register_contains_iff_valid_witness :
    (contains_module
        (ShaderMaker.new.add_composable [Item.decl "a"] "mod" []).composer "mod" = true
      ↔ validSource [Item.decl "a"] = true) ∧
    (validSource [Item.decl "a"] = false →
      ShaderMaker.new.add_composable [Item.decl "a"] "mod" [] = ShaderMaker.new) :=
  register_contains_iff_valid ShaderMaker.new [Item.decl "a"] "mod" [] (by decide)

/-- C2: define-set normalization — in the mapping `make_shader` (and
`add_composable`) builds and passes to composition, every activated
symbol resolves to `true` (the default value for an activated symbol),
and every symbol outside the activated set — in particular every
declared-but-inactive symbol — resolves to the default `false`. -/
theorem defineNormalization (activated : List String) (sym : String) :
    (sym ∈ activated →
      resolveDefine (buildDefsMap activated) sym = ShaderDefValue.bool true) ∧
    (sym ∉ activated →
      resolveDefine (buildDefsMap activated) sym = ShaderDefValue.bool false) := by
  constructor <;> intro h <;>
    simp [resolveDefine, alookup_buildDefsMap, h, ShaderDefValue.default]

theorem defineNormalization_witness :
    resolveDefine (buildDefsMap ["X"]) "X" = ShaderDefValue.bool true ∧
    resolveDefine (buildDefsMap ["X"]) "Y" = ShaderDefValue.bool false :=
  ⟨(defineNormalization ["X"] "X").1 (by simp),
   (defineNormalization ["X"] "Y").2 (by simp)⟩

/-! ### Composition as a value-returning, state-preserving call -/

lemma makeShader_state_eq (sm : ShaderMaker) (source : List Item)
    (shader_defs : List String) :
    (sm.make_shader source shader_defs).2.2 = sm := by
  cases h : make_naga_module sm.composer source (buildDefsMap shader_defs) <;>
    simp [ShaderMaker.make_shader, h]

/-- C3: composition returns its outcome as a value and never aborts — for
every wrapper state, main source and activated define set, `make_shader`
returns `some` artifact exactly when the underlying composition succeeds,
and returns `none` after surfacing the rendered diagnostic when it fails;
both branches are total. -/
theorem makeShader_total_result (sm : ShaderMaker) (source : List Item)
    (shader_defs : List String) :
    (∃ m, make_naga_module sm.composer source (buildDefsMap shader_defs) = .ok m ∧
      sm.make_shader source shader_defs = (some (.naga m), none, sm)) ∨
    (∃ e, make_naga_module sm.composer source (buildDefsMap shader_defs) = .error e ∧
      sm.make_shader source shader_defs =
        (none, some (emit_to_string e sm.composer), sm)) := by
  cases h : make_naga_module sm.composer source (buildDefsMap shader_defs) with
  | ok m => exact Or.inl ⟨m, rfl, by simp [ShaderMaker.make_shader, h]⟩
  | error e => exact Or.inr ⟨e, rfl, by simp [ShaderMaker.make_shader, h]⟩

/-- C5: composition is deterministic — against a fixed registry state, the
call leaves the wrapper state unchanged, so a second `make_shader` call
with the identical main source and identical activated define set
produces a structurally identical result (same artifact on success, same
failure outcome). -/
theorem makeShader_deterministic (sm : ShaderMaker) (source : List Item)
    (shader_defs : List String) :
    (sm.make_shader source shader_defs).2.2 = sm ∧
    (sm.make_shader source shader_defs).2.2.make_shader source shader_defs
      = sm.make_shader source shader_defs := by
  refine ⟨makeShader_state_eq sm source shader_defs, ?_⟩
  rw [makeShader_state_eq sm source shader_defs]

/-- C6: a failed composition leaves the registry unchanged — if
`make_shader` returns `none`, the registered modules (with their sources
and defines) after the call are exactly those before it. -/
theorem makeShader_failure_frame (sm : ShaderMaker) (source : List Item)
    (shader_defs : List String)
    (_h : (sm.make_shader source shader_defs).1 = none) :
    (sm.make_shader source shader_defs).2.2.composer.modules
      = sm.composer.modules := by
  rw [makeShader_state_eq sm source shader_defs]

theorem makeShader_failure_frame_witness :
    (ShaderMaker.new.make_shader [Item.imp "m"] []).1 = none ∧
    (ShaderMaker.new.make_shader [Item.imp "m"] []).2.2.composer.modules
      = ShaderMaker.new.composer.modules :=
  ⟨by decide, makeShader_failure_frame ShaderMaker.new [Item.imp "m"] [] (by decide)⟩

/-- C8: diagnostic rendering is total and read-only — whenever
composition fails, the failure's rendered form (`emit_to_string` against
the registry) is a value the call actually produced, and the registry
observed through `contains_module` is identical before and after the
whole call, rendering included. -/
theorem diagnosticRendering_total_readonly (sm : ShaderMaker) (source : List Item)
    (shader_defs : List String)
    (h : (sm.make_shader source shader_defs).1 = none) :
    ∃ e : Diagnostic,
      make_naga_module sm.composer source (buildDefsMap shader_defs) = .error e ∧
      (sm.make_shader source shader_defs).2.1 = some (emit_to_string e sm.composer) ∧
      ∀ name, contains_module (sm.make_shader source shader_defs).2.2.composer name
        = contains_module sm.composer name := by
  cases he : make_naga_module sm.composer source (buildDefsMap shader_defs) with
  | ok m => simp [ShaderMaker.make_shader, he] at h
  | error e =>
    refine ⟨e, rfl, by simp [ShaderMaker.make_shader, he], fun name => ?_⟩
    rw [makeShader_state_eq sm source shader_defs]

theorem diagnosticRendering_total_readonly_witness :
    (ShaderMaker.new.make_shader [Item.imp "m"] []).1 = none ∧
    ∃ e : Diagnostic,
      make_naga_module ShaderMaker.new.composer [Item.imp "m"] (buildDefsMap [])
        = .error e ∧
      (ShaderMaker.new.make_shader [Item.imp "m"] []).2.1
        = some (emit_to_string e ShaderMaker.new.composer) ∧
      ∀ name, contains_module
          (ShaderMaker.new.make_shader [Item.imp "m"] []).2.2.composer name
        = contains_module ShaderMaker.new.composer name :=
  ⟨by decide, diagnosticRendering_total_readonly ShaderMaker.new [Item.imp "m"] [] (by decide)⟩

/-! ### Conditional compilation -/

lemma evalGuard_buildDefsMap (defs : List String) (sym : String) :
    evalGuard (buildDefsMap defs) sym = true ↔ sym ∈ defs := by
  unfold evalGuard resolveDefine
  rw [alookup_buildDefsMap]
  by_cases h : sym ∈ defs <;>
    simp [h, ShaderDefValue.default, ShaderDefValue.isTrue]

lemma mem_declNames_of_mem_enabledDecls (m : DefsMap) (it : Item) (d : String)
    (h : d ∈ it.enabledDecls m) : d ∈ it.declNames := by
  cases it with
  | imp n => simp [Item.enabledDecls] at h
  | decl n => simpa [Item.enabledDecls, Item.declNames] using h
  | ifdef sym body =>
    by_cases hg : evalGuard m sym
    · simpa [Item.enabledDecls, hg, Item.declNames] using h
    · simp [Item.enabledDecls, hg] at h

lemma mem_declNamesOf_of_mem_applyDefs (m : DefsMap) :
    ∀ (src : List Item) (d : String), d ∈ applyDefs m src → d ∈ declNamesOf src
  | [], d, h => by simp [applyDefs] at h
  | it :: rest, d, h => by
    rw [applyDefs] at h
    rw [declNamesOf]
    rcases List.mem_append.mp h with h1 | h2
    · exact List.mem_append.mpr (Or.inl (mem_declNames_of_mem_enabledDecls m it d h1))
    · exact List.mem_append.mpr
        (Or.inr (mem_declNamesOf_of_mem_applyDefs m rest d h2))

lemma mem_unitsDecls (d : String) :
    ∀ (units : List ComposableModule), d ∈ unitsDecls units →
      ∃ u ∈ units, d ∈ applyDefs u.shader_defs u.source
  | [], h => by simp [unitsDecls] at h
  | u :: rest, h => by
    rw [unitsDecls] at h
    rcases List.mem_append.mp h with h1 | h2
    · exact ⟨u, List.mem_cons_self u rest, h1⟩
    · obtain ⟨u', hu', hd'⟩ := mem_unitsDecls d rest h2
      exact ⟨u', List.mem_cons_of_mem u hu', hd'⟩

lemma applyDefs_append (m : DefsMap) :
    ∀ (l1 l2 : List Item), applyDefs m (l1 ++ l2) = applyDefs m l1 ++ applyDefs m l2
  | [], l2 => by simp [applyDefs]
  | it :: rest, l2 => by
    rw [List.cons_append, applyDefs, applyDefs, applyDefs_append m rest l2,
      List.append_assoc]

lemma resolveNames_mem (c : Composer) :
    ∀ (fuel : Nat) (stack visited names : List String)
      (units : List ComposableModule) (vis : List String),
      resolveNames c fuel stack visited names = .ok (units, vis) →
      ∀ u ∈ units, u ∈ c.modules := by
  intro fuel
  induction fuel with
  | zero =>
    intro stack visited names units vis h
    cases names with
    | nil =>
      rw [resolveNames] at h
      injection h with h'
      injection h' with h1 _
      subst h1
      intro u hu
      simp at hu
    | cons n rest =>
      rw [resolveNames] at h
      cases h
  | succ fuel ih =>
    intro stack visited names units vis h
    cases names with
    | nil =>
      rw [resolveNames] at h
      injection h with h'
      injection h' with h1 _
      subst h1
      intro u hu
      simp at hu
    | cons n rest =>
      rw [resolveNames] at h
      by_cases hv : n ∈ visited
      · rw [if_pos hv] at h
        exact ih stack visited rest units vis h
      · rw [if_neg hv] at h
        by_cases hs : n ∈ stack
        · rw [if_pos hs] at h
          cases h
        · rw [if_neg hs] at h
          split at h
          · cases h
          · rename_i m hf
            split at h
            · cases h
            · rename_i units1 visited1 h1
              split at h
              · cases h
              · rename_i units2 visited2 h2
                injection h with h'
                injection h' with hu _
                subst hu
                intro u hu
                rcases List.mem_append.mp hu with hu1 | hu2
                · exact ih (stack ++ [n]) visited (importsOf m.source) units1
                    visited1 h1 u hu1
                · rcases List.mem_cons.mp hu2 with rfl | hu3
                  · exact lookupModule_mem n c.modules u hf
                  · exact ih stack (visited1 ++ [n]) rest units2 visited2 h2 u hu3

lemma make_naga_module_ok_decls (c : Composer) (source : List Item)
    (shader_defs : DefsMap) (m : NagaModule)
    (h : make_naga_module c source shader_defs = .ok m) :
    ∃ units : List ComposableModule, (∀ u ∈ units, u ∈ c.modules) ∧
      m.decls = unitsDecls units ++ applyDefs shader_defs source := by
  unfold make_naga_module at h
  cases h1 : resolveNames c (importBudget c + (importsOf source).length + 1) [] []
      (importsOf source) with
  | error e => rw [h1] at h; cases h
  | ok p =>
    obtain ⟨units, vis⟩ := p
    rw [h1] at h
    simp only at h
    cases h2 : firstDup (unitsDecls units ++ applyDefs shader_defs source) with
    | some d => rw [h2] at h; cases h
    | none =>
      rw [h2] at h
      by_cases h3 : (unitsDecls units ++ applyDefs shader_defs source).all
          validDeclName = true
      · rw [if_pos h3] at h
        injection h with h'
        refine ⟨units, ?_, by rw [← h']⟩
        exact resolveNames_mem c _ [] [] (importsOf source) units vis h1
      · rw [if_neg h3] at h
        cases h

/-- C7: conditional compilation honors activation — for any main source
containing a top-level declaration guarded by a conditional block on
symbol `X` (and declaring that name nowhere else, with no registered
module declaring it either), if the call produces an artifact then the
guarded declaration appears in it exactly when `X` is in the activated
define set: present when `X` is activated, excluded when `X` is absent. -/
theorem conditionalCompilation_honors_defines (sm : ShaderMaker)
    (pre post : List Item) (X d : String) (shader_defs : List String)
    (art : NagaModule)
    (hpre : d ∉ declNamesOf pre) (hpost : d ∉ declNamesOf post)
    (hmods : ∀ m ∈ sm.composer.modules, d ∉ declNamesOf m.source)
    (hart : (sm.make_shader (pre ++ Item.ifdef X [d] :: post) shader_defs).1
      = some (ShaderSource.naga art)) :
    (X ∈ shader_defs → d ∈ art.decls) ∧ (X ∉ shader_defs → d ∉ art.decls) := by
  have hok : make_naga_module sm.composer (pre ++ Item.ifdef X [d] :: post)
      (buildDefsMap shader_defs) = .ok art := by
    cases he : make_naga_module sm.composer (pre ++ Item.ifdef X [d] :: post)
        (buildDefsMap shader_defs) with
    | ok m =>
      simp only [ShaderMaker.make_shader, he, Option.some.injEq] at hart
      cases hart
      rfl
    | error e => simp [ShaderMaker.make_shader, he] at hart
  obtain ⟨units, hunits, hdecls⟩ := make_naga_module_ok_decls _ _ _ _ hok
  constructor
  · intro hX
    have hg : evalGuard (buildDefsMap shader_defs) X = true :=
      (evalGuard_buildDefsMap shader_defs X).mpr hX
    have hmain : applyDefs (buildDefsMap shader_defs) (pre ++ Item.ifdef X [d] :: post)
        = applyDefs (buildDefsMap shader_defs) pre
          ++ [d] ++ applyDefs (buildDefsMap shader_defs) post := by
      rw [applyDefs_append, applyDefs]
      simp [Item.enabledDecls, hg]
    rw [hdecls, hmain]
    simp
  · intro hX
    have hg : evalGuard (buildDefsMap shader_defs) X = false := by
      cases hb : evalGuard (buildDefsMap shader_defs) X
      · rfl
      · exact absurd ((evalGuard_buildDefsMap shader_defs X).mp hb) hX
    have hmain : applyDefs (buildDefsMap shader_defs) (pre ++ Item.ifdef X [d] :: post)
        = applyDefs (buildDefsMap shader_defs) pre
          ++ applyDefs (buildDefsMap shader_defs) post := by
      rw [applyDefs_append, applyDefs]
      simp [Item.enabledDecls, hg]
    rw [hdecls, hmain]
    intro hd
    rcases List.mem_append.mp hd with hd1 | hd2
    · obtain ⟨u, hu, hdu⟩ := mem_unitsDecls d units hd1
      exact hmods u (hunits u hu) (mem_declNamesOf_of_mem_applyDefs _ _ _ hdu)
    · rcases List.mem_append.mp hd2 with hd3 | hd4
      · exact hpre (mem_declNamesOf_of_mem_applyDefs _ _ _ hd3)
      · exact hpost (mem_declNamesOf_of_mem_applyDefs _ _ _ hd4)

theorem conditionalCompilation_honors_defines_witness :
    (ShaderMaker.new.make_shader [Item.decl "a", Item.ifdef "X" ["d"]] ["X"]).1
      = some (ShaderSource.naga { decls := ["a", "d"] }) ∧
    (("X" ∈ ["X"] → "d" ∈ (NagaModule.mk ["a", "d"]).decls) ∧
     ("X" ∉ ["X"] → "d" ∉ (NagaModule.mk ["a", "d"]).decls)) :=
  ⟨by decide,
   conditionalCompilation_honors_defines ShaderMaker.new [Item.decl "a"] [] "X" "d"
     ["X"] (NagaModule.mk ["a", "d"]) (by decide) (by decide) (by decide) (by decide)⟩

/-! ### The align_up helper -/

lemma and_mask_high (k : Nat) (hk : k ≤ 32) (x : Nat) (hx : x < 2 ^ 32) :
    x &&& ((2 ^ 32 - 1) ^^^ (2 ^ k - 1)) = x - x % 2 ^ k := by
  have hsub : x - x % 2 ^ k = (x >>> k) <<< k := by
    rw [Nat.shiftLeft_eq, Nat.shiftRight_eq_div_pow, Nat.mul_comm]
    have h := Nat.div_add_mod x (2 ^ k)
    omega
  apply Nat.eq_of_testBit_eq
  intro i
  rw [hsub, Nat.testBit_and, Nat.testBit_xor, Nat.testBit_two_pow_sub_one,
    Nat.testBit_two_pow_sub_one, Nat.testBit_shiftLeft, Nat.testBit_shiftRight]
  by_cases h1 : i < k
  · have h2 : i < 32 := lt_of_lt_of_le h1 hk
    simp [h1, h2, Nat.not_le.mpr h1]
  · by_cases h2 : i < 32
    · have hik : k ≤ i := Nat.le_of_not_lt h1
      have heq : k + (i - k) = i := by omega
      simp [h1, h2, hik, heq]
    · have hik : k ≤ i := le_trans hk (Nat.le_of_not_lt h2)
      have heq : k + (i - k) = i := by omega
      have hxi : x.testBit i = false :=
        Nat.testBit_lt_two_pow
          (lt_of_lt_of_le hx (Nat.pow_le_pow_right (by norm_num) (Nat.le_of_not_lt h2)))
      simp [h1, h2, hik, heq, hxi]

/-- C9: `align_up` computes the least aligned upper bound — for every
`u32` value and every power-of-two alignment, with the addition taken
modulo `2 ^ 32`, the result is a multiple of the alignment; and whenever
`num + align - 1` does not overflow, the result is at least `num` and is
the least multiple of the alignment that is at least `num`. -/
theorem align_up_least_aligned_bound (num align k : Nat)
    (hpow : align = 2 ^ k) (hk : k ≤ 31) (hnum : num < 2 ^ 32) :
    align ∣ align_up num align ∧
    (num + align - 1 < 2 ^ 32 →
      num ≤ align_up num align ∧
      ∀ m : Nat, align ∣ m → num ≤ m → align_up num align ≤ m) := by
  subst hpow
  have hk32 : k ≤ 32 := le_trans hk (by norm_num)
  have hpos : 0 < 2 ^ k := Nat.pow_pos (by norm_num)
  obtain ⟨x, hxe⟩ : ∃ x, x = (num + (2 ^ k - 1)) % 2 ^ 32 := ⟨_, rfl⟩
  have hxlt : x < 2 ^ 32 := by
    rw [hxe]
    exact Nat.mod_lt _ (by norm_num)
  have hmask : align_up num (2 ^ k) = x - x % 2 ^ k := by
    unfold align_up
    rw [← hxe]
    exact and_mask_high k hk32 x hxlt
  have hdm := Nat.div_add_mod x (2 ^ k)
  have hr : x % 2 ^ k < 2 ^ k := Nat.mod_lt _ hpos
  constructor
  · rw [hmask]
    exact ⟨x / 2 ^ k, by omega⟩
  · intro hno
    have hxeq : x = num + (2 ^ k - 1) := by
      rw [hxe]
      apply Nat.mod_eq_of_lt
      omega
    constructor
    · rw [hmask]
      omega
    · intro m hdvd hm
      obtain ⟨t, ht⟩ := hdvd
      rw [hmask]
      by_contra hcon
      push_neg at hcon
      have htq : t < x / 2 ^ k := by
        by_contra hle
        push_neg at hle
        have hmul := Nat.mul_le_mul_left (2 ^ k) hle
        omega
      have hsucc : t + 1 ≤ x / 2 ^ k := htq
      have hmul2 := Nat.mul_le_mul_left (2 ^ k) hsucc
      have hexp : 2 ^ k * (t + 1) = 2 ^ k * t + 2 ^ k := by ring
      omega

theorem align_up_least_aligned_bound_witness :
    4 ∣ align_up 5 4 ∧
    (5 + 4 - 1 < 2 ^ 32 →
      5 ≤ align_up 5 4 ∧
      ∀ m : Nat, 4 ∣ m → 5 ≤ m → align_up 5 4 ≤ m) :=
  align_up_least_aligned_bound 5 4 2 (by norm_num) (by norm_num) (by norm_num)
